import Mathlib

/-!
Verification development for the boosting core (`src/lib/ensemble/weight_boosting.ts`)
and the `Binarizer` preprocessing transform (`src/lib/preprocessing/data.ts`).

The TypeScript source is embedded shallowly: numeric values become `ℚ`
(idealising IEEE floats as exact rationals), labels become `ℤ`, JavaScript
exceptions become `Option` (`none` = the call threw), and the mutable
row arrays of the Binarizer become an explicit store of row cells.
-/

/-! ## AdaBoost data model (`weight_boosting.ts`) -/

/-- Embedding of `class DecisionStump` (weight_boosting.ts lines 6-11): fields
start as `polarity = 1`, `featureIndex = null`, `threshold = null`.  The
`alpha` field is computed separately by `alphaFromError` since it is the only
real-(transcendental-)valued field. -/
structure DecisionStump where
  polarity : ℤ := 1
  featureIndex : Option ℕ := none
  threshold : Option ℚ := none
deriving Repr, DecidableEq

/-- Modelled from the spec: `inferShape` is imported from `../ops`, which is not
under `src/`.  Per the spec (§3, §6) `X` is an `n×m` numeric matrix, so the
inferred shape is `(number of rows, number of columns of the first row)`. -/
def inferShape (X : List (List ℚ)) : ℕ × ℕ :=
  (X.length, (X.headD []).length)

/-- Embedding of line 35: `w = Array.from(tf.fill([nSamples], 1 / nSamples).dataSync())`,
the uniform initial weight vector `1/n` repeated `n` times (float32 rounding
idealised away). -/
def initWeights (n : ℕ) : List ℚ :=
  List.replicate n (1 / (n : ℚ))

/-- Helper for lodash `uniq`: keep the first occurrence of each value,
accumulating the values already seen. -/
def uniqFirstAux (seen : List ℚ) : List ℚ → List ℚ
  | [] => []
  | x :: xs => if x ∈ seen then uniqFirstAux seen xs else x :: uniqFirstAux (x :: seen) xs

/-- Embedding of lodash `uniq`: deduplicate keeping first occurrences in order. -/
def uniq (l : List ℚ) : List ℚ := uniqFirstAux [] l

/-- Embedding of lines 43-49: `tensorX.slice([0], [j])` takes the FIRST `j`
ROWS of `X` (tfjs pads the begin/size vectors, so this is rows `0..j-1`, all
columns — not column `j`), `dataSync` flattens row-major, `uniq` deduplicates.
These are the candidate thresholds the code actually tries for loop index `j`. -/
def featureCandidates (X : List (List ℚ)) (j : ℕ) : List ℚ :=
  uniq (X.take j).flatten

/-- Embedding of lines 57-62: the per-candidate prediction vector
`Array.from(tf.ones(tensorY.shape).dataSync()).map(x => (x < threshold ? -1 : x))`.
Every entry of the ones tensor is `1`, so the comparison is `1 < threshold` for
every sample: the result is a constant vector, independent of the feature
values of `X`. -/
def stumpPrediction (threshold : ℚ) (n : ℕ) : List ℤ :=
  List.replicate n (if (1 : ℚ) < threshold then -1 else 1)

/-- Embedding of lines 66-68: `w.filter((_, index) => y[index] !== prediction[index])
.reduce((total, x) => total + x)`.  The filter index ranges over `w`'s indices;
out-of-range accesses yield JavaScript `undefined`, modelled by comparing
`Option` lookups.  `reduce` without an initial value THROWS on an empty array,
modelled by `none`. -/
def weightedError (w : List ℚ) (y : List ℤ) (pred : List ℤ) : Option ℚ :=
  let sel := ((List.range w.length).filter (fun i => y.get? i ≠ pred.get? i)).filterMap
    (fun i => w.get? i)
  match sel with
  | [] => none
  | xs => some xs.sum

/-- Embedding of lines 73-76: if the raw weighted error exceeds `0.5`, flip the
polarity to `-1` and replace the error by `1 - error`; otherwise keep
`(error, +1)`. -/
def flipStep (e : ℚ) : ℚ × ℤ :=
  if 1 / 2 < e then (1 - e, -1) else (e, 1)

/-- Embedding of the `error < minError` comparison (line 80), where `minError`
starts as `Infinity` (modelled by `none`): everything is below `Infinity`. -/
def ltMinError (e : ℚ) : Option ℚ → Bool
  | none => true
  | some m => decide (e < m)

/-- Embedding of the body of the innermost loop (lines 51-86) for one candidate
threshold `t` in round `i`: compute the constant prediction, the weighted error
(propagating the `reduce` throw), apply the polarity flip, and record the
configuration — including the BUG `clf.featureIndex = i` (the round index, line
83) — when the error beats the minimum seen so far. -/
def evalCandidate (i : ℕ) (w : List ℚ) (y : List ℤ) (t : ℚ)
    (st : DecisionStump × Option ℚ) : Option (DecisionStump × Option ℚ) :=
  match weightedError w y (stumpPrediction t y.length) with
  | none => none
  | some e0 =>
    let pe := flipStep e0
    if ltMinError pe.1 st.2 then
      some ({ polarity := pe.2, featureIndex := some i, threshold := some t }, some pe.1)
    else
      some st

/-- Embedding of one round's stump search (lines 38-87): a fresh
`DecisionStump` and `minError = Infinity`, then the nested loops over
`j < nFeatures` and the candidate thresholds `featureCandidates X j`. -/
def roundSearch (i : ℕ) (X : List (List ℚ)) (w : List ℚ) (y : List ℤ) :
    Option (DecisionStump × Option ℚ) :=
  (List.range (inferShape X).2).foldlM
    (fun st j => (featureCandidates X j).foldlM (fun st2 t => evalCandidate i w y t st2) st)
    ({ polarity := 1, featureIndex := none, threshold := none }, none)

/-- Embedding of one iteration of the outer `for (let i = 0; ...)` loop of
`fit` (lines 37-120) on the state `(w, this.cls)`: the stump search runs (its
exceptions propagate) but its result is DISCARDED — the source never updates
`w`, never pushes onto `this.cls`. -/
def roundStep (X : List (List ℚ)) (y : List ℤ)
    (st : List ℚ × List DecisionStump) (i : ℕ) : Option (List ℚ × List DecisionStump) :=
  (roundSearch i X st.1 y).map (fun _ => st)

/-- Embedding of `fit` (lines 29-121) as a state transformer: starting from the
uniform weights and the instance's current `this.cls` (`cls0`), run `nCls`
rounds; `none` models a thrown JavaScript exception. -/
def fitState (nCls : ℕ) (X : List (List ℚ)) (y : List ℤ) (cls0 : List DecisionStump) :
    Option (List ℚ × List DecisionStump) :=
  (List.range nCls).foldlM (roundStep X y) (initWeights (inferShape X).1, cls0)

/-- The observable result of `fit`: the instance's `this.cls` after the call. -/
def fit (nCls : ℕ) (X : List (List ℚ)) (y : List ℤ) (cls0 : List DecisionStump) :
    Option (List DecisionStump) :=
  (fitState nCls X y cls0).map Prod.snd

/-- Embedding of `predict` (lines 125-129): the body is `return undefined;`.
No prediction vector is ever produced, whatever the stored members or input. -/
def predict (_cls : List DecisionStump) (_X : List (List ℚ)) : Option (List ℤ) :=
  none

/-- Modelled from the spec: `TypeModelState` is declared in `../types`, which is
not under `src/`; §4.4/§6 describe it as a plain structured record listing per
member `{featureIndex, threshold, polarity}` (alpha elided as in
`DecisionStump` above). -/
structure TypeModelState where
  members : List (Option ℕ × Option ℚ × ℤ)
deriving Repr, DecidableEq

/-- Embedding of `toJSON` (lines 131-133): the body is `return undefined;`. -/
def toJSON (_cls : List DecisionStump) : Option TypeModelState :=
  none

/-- Embedding of `fromJSON` (line 123): the body is empty, so the instance's
`this.cls` is left untouched whatever state record is supplied. -/
def fromJSON (_state : TypeModelState) (cls : List DecisionStump) : List DecisionStump :=
  cls

/-- Embedding of line 91: `clf.alpha = 0.5 * Math.log((1.0 - minError) / (minError + 1e-10))`
(`0.5` and `1e-10` written as the rationals `1/2` and `1/10^10`). -/
noncomputable def alphaFromError (minError : ℝ) : ℝ :=
  1 / 2 * Real.log ((1 - minError) / (minError + 1 / 10 ^ 10))

/-- Stated from the spec's words, for comparison with `stumpPrediction`: the
decision rule "prediction for sample `i` is `+1` if `x_i[j] >= t` and `-1`
otherwise" (spec §4.1, polarity `+1`). -/
def specStumpPrediction (X : List (List ℚ)) (j : ℕ) (t : ℚ) : List ℤ :=
  X.map (fun row => if t ≤ row.getD j 0 then 1 else -1)

/-! ## Binarizer (`data.ts` lines 371-426)

JavaScript nested arrays are reference values: a matrix is an outer array of
references to row arrays.  We model the row arrays as a `store` (a list of row
cells, addressed by position) and a matrix value as a list of cell addresses
(`refs`).  Lodash `_.clone` is a SHALLOW clone: it allocates a new outer array
holding the SAME row references, so the clone is modelled as returning the
same address list. -/

/-- Embedding of line 421's right-hand side: `item <= this.threshold ? 0 : 1`. -/
def binVal (threshold item : ℚ) : ℚ :=
  if item ≤ threshold then 0 else 1

/-- Read the row array a cell address refers to (JavaScript `_.get(X, [row])`,
with `[]` for a dangling reference, which never arises at canonical refs). -/
def derefRow (store : List (List ℚ)) (r : ℕ) : List ℚ :=
  store.getD r []

/-- The matrix a list of row references denotes, as the caller sees it. -/
def derefMatrix (store : List (List ℚ)) (refs : List ℕ) : List (List ℚ) :=
  refs.map (derefRow store)

/-- Embedding of lodash `_.clone(X)` on an array of row references (line 405):
a new outer array containing the same row references. -/
def lodashClone (refs : List ℕ) : List ℕ :=
  refs

/-- Embedding of the assignment `_X[row][column] = v` (line 421): overwrite one
entry of the row cell addressed by `r`. -/
def writeCell (store : List (List ℚ)) (r c : ℕ) (v : ℚ) : List (List ℚ) :=
  store.set r ((derefRow store r).set c v)

/-- Embedding of the inner `column` loop (lines 414-422): the bound is
`_.size(rowValue)` with `rowValue = _.get(X, [row])` (read through `X`'s
reference `xr`), each `item` is read through `X`'s reference, and the write
goes through `_X`'s reference `ur`. -/
def transformColLoop (t : ℚ) (xr ur : ℕ) (store : List (List ℚ)) : List (List ℚ) :=
  (List.range (derefRow store xr).length).foldl
    (fun st c => writeCell st ur c (binVal t ((derefRow st xr).getD c 0))) store

/-- Embedding of `Binarizer.transform` (lines 402-425) in the store model:
`_X` is the shallow clone of `X` when `copy` is set (line 405) and `X` itself
otherwise; an empty `X` throws (line 410, modelled by `none`); the nested loops
binarize every entry, reading through `X` and writing through `_X`; the method
returns `_X`. -/
def transform (t : ℚ) (copy : Bool) (store : List (List ℚ)) (xRefs : List ℕ) :
    Option (List (List ℚ) × List ℕ) :=
  let uRefs := if copy then lodashClone xRefs else xRefs
  if xRefs.isEmpty then none
  else
    some ((List.range xRefs.length).foldl
      (fun st rIdx => transformColLoop t (xRefs.getD rIdx 0) (uRefs.getD rIdx 0) st) store,
      uRefs)

/-- The canonical allocation of a fresh matrix literal `X`: row `i` lives in
cell `i` of the store, and the store holds exactly `X`'s rows. -/
def canonRefs (X : List (List ℚ)) : List ℕ :=
  List.range X.length

/-- The elementwise binarization of a matrix — the value `transform` is
documented to produce (doc comment, data.ts lines 392-399). -/
def binarizeMatrix (t : ℚ) (X : List (List ℚ)) : List (List ℚ) :=
  X.map (fun row => row.map (binVal t))

/-! ## List helper lemmas -/

lemma listGetDSetSelf {α : Type} (l : List α) (n : ℕ) (a d : α) (h : n < l.length) :
    (l.set n a).getD n d = a := by
  induction l generalizing n with
  | nil => simp at h
  | cons x xs ih =>
    cases n with
    | zero => simp
    | succ m =>
      simp only [List.set_cons_succ, List.getD_cons_succ]
      exact ih m (by simpa using h)

lemma listGetDSetNe {α : Type} (l : List α) (m n : ℕ) (a d : α) (h : m ≠ n) :
    (l.set m a).getD n d = l.getD n d := by
  induction l generalizing m n with
  | nil => simp [List.set]
  | cons x xs ih =>
    cases m with
    | zero =>
      cases n with
      | zero => exact absurd rfl h
      | succ k => simp
    | succ m0 =>
      cases n with
      | zero => simp
      | succ k =>
        simp only [List.set_cons_succ, List.getD_cons_succ]
        exact ih m0 k (fun hc => h (by rw [hc]))

lemma listSetGetDSelf {α : Type} (l : List α) (n : ℕ) (d : α) (h : n < l.length) :
    l.set n (l.getD n d) = l := by
  induction l generalizing n with
  | nil => simp at h
  | cons x xs ih =>
    cases n with
    | zero => simp
    | succ m =>
      simp only [List.getD_cons_succ, List.set_cons_succ]
      rw [ih m (by simpa using h)]

/-- Reading position `j` of `(take j row).map f ++ drop j row` sees the
original `row[j]`: the writes so far only touched earlier positions. -/
lemma takeMapDropGetD {α : Type} (f : α → α) (row : List α) (j : ℕ) (d : α)
    (hj : j < row.length) :
    ((row.take j).map f ++ row.drop j).getD j d = row.getD j d := by
  induction j generalizing row with
  | zero => simp
  | succ k ih =>
    cases row with
    | nil => simp at hj
    | cons a l =>
      simp only [List.take_succ_cons, List.map_cons, List.cons_append, List.drop_succ_cons,
        List.getD_cons_succ]
      exact ih l (by simpa using hj)

/-- Writing `f row[j]` at position `j` of `(take j row).map f ++ drop j row`
advances the mapped prefix by one. -/
lemma takeMapDropSet {α : Type} (f : α → α) (row : List α) (j : ℕ) (d : α)
    (hj : j < row.length) :
    ((row.take j).map f ++ row.drop j).set j (f (row.getD j d))
      = (row.take (j + 1)).map f ++ row.drop (j + 1) := by
  induction j generalizing row with
  | zero =>
    cases row with
    | nil => simp at hj
    | cons a l => simp
  | succ k ih =>
    cases row with
    | nil => simp at hj
    | cons a l =>
      simp only [List.take_succ_cons, List.map_cons, List.cons_append, List.drop_succ_cons,
        List.getD_cons_succ, List.set_cons_succ]
      rw [ih l (by simpa using hj)]

/-- Two folds over the same list agree when the step functions agree on the
list's elements. -/
lemma foldlCongrMem {α β : Type} (l : List β) (f g : α → β → α) (a : α)
    (h : ∀ b ∈ l, ∀ x, f x b = g x b) : l.foldl f a = l.foldl g a := by
  induction l generalizing a with
  | nil => rfl
  | cons b bs ih =>
    simp only [List.foldl_cons]
    rw [h b (List.mem_cons_self b bs) a]
    exact ih (g a b) (fun c hc x => h c (List.mem_cons_of_mem b hc) x)

lemma getDRange (n i : ℕ) (h : i < n) : (List.range n).getD i 0 = i := by
  rw [List.getD_eq_getElem _ _ (by simpa using h)]
  exact List.getElem_range i _

/-- Dereferencing the canonical references of a store returns the store. -/
lemma derefMatrixRange (store : List (List ℚ)) :
    derefMatrix store (List.range store.length) = store := by
  apply List.ext_getElem
  · simp [derefMatrix]
  · intro n h1 h2
    simp only [derefMatrix, List.getElem_map, List.getElem_range]
    exact (List.getD_eq_getElem store [] h2).symm ▸ rfl

/-! ## Binarizer loop characterisation -/

/-- The inner column loop, stopped after `j` columns, has binarized the first
`j` entries of row `r` and left everything else intact. -/
lemma colLoopAux (t : ℚ) (r : ℕ) (store : List (List ℚ)) (hr : r < store.length)
    (j : ℕ) (hj : j ≤ (derefRow store r).length) :
    (List.range j).foldl
        (fun st c => writeCell st r c (binVal t ((derefRow st r).getD c 0))) store
      = store.set r
          (((derefRow store r).take j).map (binVal t) ++ (derefRow store r).drop j) := by
  induction j with
  | zero =>
    simp only [List.range_zero, List.foldl_nil, List.take_zero, List.map_nil,
      List.nil_append, List.drop_zero]
    exact (listSetGetDSelf store r [] hr).symm
  | succ k ih =>
    have hk : k < (derefRow store r).length := Nat.lt_of_succ_le hj
    rw [List.range_succ, List.foldl_append, ih (Nat.le_of_lt hk)]
    simp only [List.foldl_cons, List.foldl_nil]
    set row := derefRow store r with hrow
    have hcur : derefRow (store.set r ((row.take k).map (binVal t) ++ row.drop k)) r
        = (row.take k).map (binVal t) ++ row.drop k := by
      simpa [derefRow] using
        listGetDSetSelf store r ((row.take k).map (binVal t) ++ row.drop k) [] hr
    rw [writeCell, hcur, takeMapDropGetD (binVal t) row k 0 hk, List.set_set,
      takeMapDropSet (binVal t) row k 0 hk]

/-- When reads and writes go through the same row reference `r`, the column
loop replaces row `r` by its binarization. -/
lemma transformColLoopEq (t : ℚ) (r : ℕ) (store : List (List ℚ)) (hr : r < store.length) :
    transformColLoop t r r store = store.set r ((derefRow store r).map (binVal t)) := by
  rw [transformColLoop, colLoopAux t r store hr (derefRow store r).length (le_refl _)]
  simp

/-- The outer row loop, stopped after `k` rows, has binarized the first `k`
rows of the canonical store. -/
lemma rowLoopAux (t : ℚ) (X : List (List ℚ)) (k : ℕ) (hk : k ≤ X.length) :
    (List.range k).foldl (fun st r => transformColLoop t r r st) X
      = (X.take k).map (fun row => row.map (binVal t)) ++ X.drop k := by
  induction k with
  | zero => simp
  | succ j ih =>
    have hj : j < X.length := Nat.lt_of_succ_le hk
    rw [List.range_succ, List.foldl_append, ih (Nat.le_of_lt hj)]
    simp only [List.foldl_cons, List.foldl_nil]
    set F : List ℚ → List ℚ := fun row => row.map (binVal t) with hF
    have hlen : ((X.take j).map F ++ X.drop j).length = X.length := by
      simp only [List.length_append, List.length_map, List.length_take, List.length_drop]
      omega
    have hderef : derefRow ((X.take j).map F ++ X.drop j) j = X.getD j [] := by
      simpa [derefRow] using takeMapDropGetD F X j [] hj
    rw [transformColLoopEq t j _ (by rw [hlen]; exact hj), hderef]
    exact takeMapDropSet F X j [] hj

/-- `transform` with the canonical allocation binarizes the whole store. -/
lemma transformStoreLoopEq (t : ℚ) (X : List (List ℚ)) :
    (List.range (canonRefs X).length).foldl
        (fun st rIdx =>
          transformColLoop t ((canonRefs X).getD rIdx 0) ((canonRefs X).getD rIdx 0) st) X
      = binarizeMatrix t X := by
  have hcongr : (List.range (canonRefs X).length).foldl
      (fun st rIdx =>
        transformColLoop t ((canonRefs X).getD rIdx 0) ((canonRefs X).getD rIdx 0) st) X
      = (List.range (canonRefs X).length).foldl (fun st r => transformColLoop t r r st) X := by
    apply foldlCongrMem
    intro b hb x
    have hblt : b < X.length := by
      simpa [canonRefs] using List.mem_range.mp (by simpa [canonRefs] using hb)
    simp only [canonRefs]
    rw [getDRange _ _ hblt]
  rw [hcongr]
  have : (canonRefs X).length = X.length := by simp [canonRefs]
  rw [this, rowLoopAux t X X.length (le_refl _)]
  simp [binarizeMatrix]

/-- A successful pass of `fit`'s round loop returns its starting state: the
round body discards the search result, so neither the weight vector nor
`this.cls` ever changes. -/
lemma roundStepFoldPreserves (X : List (List ℚ)) (y : List ℤ) (l : List ℕ)
    (s0 s : List ℚ × List DecisionStump) (h : l.foldlM (roundStep X y) s0 = some s) :
    s = s0 := by
  induction l generalizing s0 with
  | nil =>
    simp only [List.foldlM_nil] at h
    exact (Option.some_injective _ h).symm
  | cons a as ih =>
    rw [List.foldlM_cons] at h
    cases hsearch : roundSearch a X s0.1 y with
    | none => rw [roundStep, hsearch] at h; simp at h
    | some v =>
      rw [roundStep, hsearch] at h
      simp only [Option.map_some', Option.some_bind] at h
      exact ih s0 h

/-! ## Claim theorems -/

/-- Claim C1: for every trained ensemble and every input sample, `predict` is
said to compute `score = Σ alpha_m * stumpPrediction(member, sample)` and
return `sign(score) ∈ {+1, -1}` — never `0`, `NaN` or `undefined`.  The
source's `predict` body is `return undefined;` (lines 125-129): it produces no
label vector at all, for any stored members and any input. -/
theorem predict_produces_no_output :
    ∀ (cls : List DecisionStump) (X : List (List ℚ)), predict cls X = none :=
  fun _ _ => rfl

/-- Claim C2: the stump search is said to minimise over candidate thresholds
drawn from the distinct values of FEATURE `j` and to record the minimising
feature index.  In the source, `tensorX.slice([0], [j])` takes the first `j`
ROWS, so for a single-feature matrix (`j` ranges over `{0}` only) the search
evaluates zero candidates and returns the unset stump; and `clf.featureIndex`
is assigned the ROUND index `i` (line 83): in round `1` on `[[1,10],[1,20]]`
the recorded stump has `featureIndex = 1` and `threshold = 1`, although the
winning threshold `1` is a value of feature `0` only. -/
theorem stump_search_ignores_feature_columns :
    roundSearch 0 [[(5 : ℚ)], [7]] (initWeights 2) [1, -1]
        = some ({ polarity := 1, featureIndex := none, threshold := none }, none)
    ∧ roundSearch 1 [[(1 : ℚ), 10], [1, 20]] (initWeights 2) [1, -1]
        = some ({ polarity := 1, featureIndex := some 1, threshold := some 1 }, some (1 / 2)) := by
  refine ⟨by decide, ?_⟩
  norm_num [roundSearch, inferShape, initWeights, featureCandidates, uniq, uniqFirstAux,
    evalCandidate, weightedError, stumpPrediction, flipStep, ltMinError,
    List.range_succ, List.filter, List.filterMap, List.replicate, List.foldlM]

/-- Claim C3: the candidate prediction for sample `i` is said to be `+1` iff
`x_i[j] ≥ t`.  The source maps over a ones tensor, comparing the constant `1`
(not the sample's feature value) against the threshold (lines 57-62): with
threshold `3` and a sample whose feature value is `5`, the code predicts `-1`
while the claimed rule gives `+1`. -/
theorem stump_search_prediction_ignores_samples :
    stumpPrediction 3 1 = [-1]
    ∧ specStumpPrediction [[(5 : ℚ)]] 0 3 = [1]
    ∧ stumpPrediction 3 1 ≠ specStumpPrediction [[(5 : ℚ)]] 0 3 := by
  refine ⟨?_, ?_, ?_⟩
  · norm_num [stumpPrediction]
  · norm_num [specStumpPrediction]
  · norm_num [stumpPrediction, specStumpPrediction]

/-- Claim C4: weights are said to be initialised to `1/n` and then reweighted
by `exp(-alpha * y_i * pred_i)` and renormalised after every round.  The
source initialises `w` uniformly (line 35) but never reassigns it: after any
successful `fit`, the weight state is still the initial uniform vector. -/
theorem fit_never_reweights (nCls : ℕ) (X : List (List ℚ)) (y : List ℤ)
    (cls0 : List DecisionStump) (st : List ℚ × List DecisionStump)
    (h : fitState nCls X y cls0 = some st) : st.1 = initWeights X.length := by
  rw [roundStepFoldPreserves X y (List.range nCls) (initWeights (inferShape X).1, cls0) st h]
  rfl

theorem fit_never_reweights_witness :
    ((initWeights 2, ([] : List DecisionStump)) : List ℚ × List DecisionStump).1
      = initWeights 2 :=
  fit_never_reweights 1 [[(1 : ℚ), 2], [3, 4]] [1, -1] [] (initWeights 2, []) (by
    norm_num [fitState, roundStep, roundSearch, inferShape, initWeights, featureCandidates,
      uniq, uniqFirstAux, evalCandidate, weightedError, stumpPrediction, flipStep, ltMinError,
      List.range_succ, List.filter, List.filterMap, List.replicate, List.foldlM])

/-- Claim C5: when the raw weighted error of a candidate exceeds `0.5`, the
search flips the polarity to `-1` and records the effective error `1 - e`
(lines 73-85); in particular a best candidate with raw error `9/10` is
recorded with polarity `-1` and error `1/10` (see the witness). -/
theorem stump_search_flips_polarity (i : ℕ) (w : List ℚ) (y : List ℤ) (t : ℚ)
    (clf : DecisionStump) (minE : Option ℚ) (e0 : ℚ)
    (he : weightedError w y (stumpPrediction t y.length) = some e0)
    (hgt : 1 / 2 < e0)
    (hmin : ltMinError (1 - e0) minE = true) :
    evalCandidate i w y t (clf, minE)
      = some ({ polarity := -1, featureIndex := some i, threshold := some t },
          some (1 - e0)) := by
  have hflip : flipStep e0 = (1 - e0, -1) := by rw [flipStep, if_pos hgt]
  simp only [evalCandidate, he, hflip, hmin, if_pos]

theorem stump_search_flips_polarity_witness :
    evalCandidate 0 [(9 : ℚ) / 10, 1 / 10] [-1, 1] 1
        ({ polarity := 1, featureIndex := none, threshold := none }, none)
      = some ({ polarity := -1, featureIndex := some 0, threshold := some 1 },
          some (1 - 9 / 10)) :=
  stump_search_flips_polarity 0 [(9 : ℚ) / 10, 1 / 10] [-1, 1] 1
    { polarity := 1, featureIndex := none, threshold := none } none (9 / 10)
    (by norm_num [weightedError, stumpPrediction, List.replicate, List.range_succ,
      List.filter, List.filterMap])
    (by norm_num) rfl

/-- Claim C6: `alpha = 0.5 * ln((1 - e + ε) / (e + ε))` with a small positive
`ε` in the denominator (and optionally the numerator), finite when `e = 0`.
The source (line 91) uses `ε = 1e-10` in the denominator only: the formula
matches with `ε = 1/10^10`, the smoothing constant is positive, and at `e = 0`
alpha evaluates to the finite positive real `1/2 * ln(10^10)`. -/
theorem alpha_formula_matches_spec :
    (∀ e : ℝ, alphaFromError e = 1 / 2 * Real.log ((1 - e) / (e + 1 / 10 ^ 10)))
    ∧ (0 : ℝ) < 1 / 10 ^ 10
    ∧ alphaFromError 0 = 1 / 2 * Real.log (10 ^ 10)
    ∧ 0 < alphaFromError 0 := by
  have harg : ((1 : ℝ) - 0) / (0 + 1 / 10 ^ 10) = 10 ^ 10 := by norm_num
  refine ⟨fun e => rfl, by norm_num, ?_, ?_⟩
  · rw [alphaFromError, harg]
  · rw [alphaFromError, harg]
    exact mul_pos (by norm_num) (Real.log_pos (by norm_num))

/-- Claim C7: after a successful `fit` with round count `R`, the stored
ensemble is said to hold exactly `R` members.  The source never pushes onto
`this.cls` (the loop body, lines 37-120, discards `clf`): a successful
one-round fit leaves the ensemble empty. -/
theorem fit_appends_no_members :
    fit 1 [[(1 : ℚ), 2], [3, 4]] [1, -1] [] = some [] := by
  norm_num [fit, fitState, roundStep, roundSearch, inferShape, initWeights, featureCandidates,
    uniq, uniqFirstAux, evalCandidate, weightedError, stumpPrediction, flipStep, ltMinError,
    List.range_succ, List.filter, List.filterMap, List.replicate, List.foldlM]

/-- Claim C8: `deserialize(serialize(e))` is said to predict identically to
`e`.  The source's `toJSON` body is `return undefined;` — no record is ever
produced — and `fromJSON` is empty, leaving the instance's members untouched
whatever state it is handed; `predict` (claim C1) never produces output to
compare. -/
theorem serialization_stubs :
    (∀ cls : List DecisionStump, toJSON cls = none)
    ∧ (∀ (st : TypeModelState) (cls : List DecisionStump), fromJSON st cls = cls) :=
  ⟨fun _ => rfl, fun _ _ => rfl⟩

/-- Claim C9: `fit` on shape-mismatched inputs is said to fail with
`InvalidInput` before any computation.  The source validates nothing: with a
`5×1` matrix and a length-`4` label vector it runs all ten rounds of the
search loop and returns normally (the stray index comparisons hit JavaScript
`undefined` on both sides and the single feature yields no candidates). -/
theorem fit_accepts_mismatched_shapes :
    fit 10 [[(1 : ℚ)], [2], [3], [4], [5]] [1, 1, -1, -1] [] = some [] := by decide

/-- Claim C10: `Binarizer.transform` with `copy = true` still mutates the
caller's matrix: the lodash clone is shallow, so the returned `_X` holds the
same row arrays as `X`, and the in-place writes make the caller's `X` read as
the binarized matrix. -/
theorem binarizer_copy_mutates_input (t : ℚ) (X : List (List ℚ)) (h : X ≠ []) :
    transform t true X (canonRefs X) = some (binarizeMatrix t X, canonRefs X)
    ∧ derefMatrix (binarizeMatrix t X) (canonRefs X) = binarizeMatrix t X := by
  have hlen : (binarizeMatrix t X).length = X.length := by simp [binarizeMatrix]
  constructor
  · have hne : (canonRefs X).isEmpty = false := by
      rcases X with _ | ⟨r, rs⟩
      · exact absurd rfl h
      · simp [canonRefs]
    rw [transform]
    simp only [lodashClone, if_true, hne, Bool.false_eq_true, if_false]
    rw [transformStoreLoopEq]
  · calc derefMatrix (binarizeMatrix t X) (canonRefs X)
        = derefMatrix (binarizeMatrix t X) (List.range (binarizeMatrix t X).length) := by
          rw [canonRefs, hlen]
      _ = binarizeMatrix t X := derefMatrixRange _

theorem binarizer_copy_mutates_input_witness :
    transform 0 true [[(1 : ℚ), -1, 2], [2, 0, 0], [0, 1, -1]]
        (canonRefs [[(1 : ℚ), -1, 2], [2, 0, 0], [0, 1, -1]])
      = some (binarizeMatrix 0 [[(1 : ℚ), -1, 2], [2, 0, 0], [0, 1, -1]],
          canonRefs [[(1 : ℚ), -1, 2], [2, 0, 0], [0, 1, -1]])
    ∧ derefMatrix (binarizeMatrix 0 [[(1 : ℚ), -1, 2], [2, 0, 0], [0, 1, -1]])
        (canonRefs [[(1 : ℚ), -1, 2], [2, 0, 0], [0, 1, -1]])
      = binarizeMatrix 0 [[(1 : ℚ), -1, 2], [2, 0, 0], [0, 1, -1]] :=
  binarizer_copy_mutates_input 0 [[(1 : ℚ), -1, 2], [2, 0, 0], [0, 1, -1]] (by decide)
